import Mathlib

/-!
Verification of the dashcam OCR frame-record extraction and cleaning pipeline.

The Python source is shallowly embedded as follows.

* Strings are `List Char` (wrapped in `String` at the API boundary); the
  regular expressions of `ocr_functions.py` are compiled by hand into
  deterministic matchers.  Each of the three patterns in the source has the
  property that, at a fixed start position, greedy matching never needs to
  backtrack into an earlier sub-pattern (every `\D*`, `\s*` or `.*` run is
  followed by a token its own character class cannot match), except for the
  bounded group `\d\x7b1,3\x7d` of the speed pattern, whose three
  possibilities are tried longest first.  `re.search` semantics (leftmost
  match) is a scan over start positions.
* Python character classes are modelled at ASCII: `\d` is `Char.isDigit`,
  `\s` is the six ASCII whitespace characters, `[A-Za-z]` is `Char.isAlpha`.
* Python `float` / polars `f64` arithmetic is modelled by exact rationals
  `ℚ`: the claims under study are about exact values, not rounding.
* A Python function that can raise an exception is modelled as returning
  `Option`, with `none` for a raise.
* polars dataframes are `List` of per-row structures; `filter` is
  `List.filter`, `diff().fill_null(0)` is `diffFill0`, `mode` is `pl_mode`
  (all values of maximal multiplicity, in first-occurrence order; polars
  does not specify the order, so theorems only rely on it when the mode is
  unique), `mean` / `std` are `pl_mean` / sample variance `pl_var`
  (`none` on empty input resp. fewer than two rows, where polars yields a
  null that the source then crashes on by using it in arithmetic).
-/

namespace Dashcam

/-- Python regex class `\d` (ASCII model). -/
def pyDigit (c : Char) : Bool := c.isDigit

/-- Python regex class `\s` (ASCII model): the six ASCII whitespace characters. -/
def pySpace (c : Char) : Bool :=
  c = ' ' || c = '\t' || c = '\n' || c = '\r' || c = '\x0b' || c = '\x0c'

/-- Python `int` applied to a non-empty string of decimal digits. -/
def natOfDigits (l : List Char) : ℕ :=
  l.foldl (fun a c => 10 * a + (c.toNat - 48)) 0

/-- Python `float(whole ++ "." ++ frac)` for digit strings, modelled exactly. -/
def ratOfParts (whole frac : List Char) : ℚ :=
  (natOfDigits whole : ℚ) + (natOfDigits frac : ℚ) / (10 : ℚ) ^ frac.length

/-- The output dictionary of `text_to_coordinates`. -/
structure Coord where
  latitude : ℚ
  longitude : ℚ
deriving DecidableEq

/-- The eight capture groups of the coordinate regex
`([NS])\D*(\d+)(\s*\.\s*)(\d+)\s*([EW])\D*(\d+)(\s*\.\s*)(\d+)`
(the two punctuation groups are not retained: the source never reads them). -/
structure CoordGroups where
  latDir : Char
  latWhole : List Char
  latFrac : List Char
  lonDir : Char
  lonWhole : List Char
  lonFrac : List Char
deriving DecidableEq

/-- One half of the coordinate pattern: `\D*(\d+)(\s*\.\s*)(\d+)`,
returning the whole part, the fractional part and the rest of the input. -/
def coordHalf (s : List Char) : Option (List Char × List Char × List Char) :=
  let s1 := s.dropWhile (fun c => !pyDigit c)
  let whole := s1.takeWhile pyDigit
  if whole = [] then none else
  let s2 := s1.dropWhile pyDigit
  let s3 := s2.dropWhile pySpace
  match s3 with
  | '.' :: s4 =>
    let s5 := s4.dropWhile pySpace
    let frac := s5.takeWhile pyDigit
    if frac = [] then none else some (whole, frac, s5.dropWhile pyDigit)
  | _ => none

/-- Attempt of the coordinate pattern whose `[NS]` group matched `c`,
continuing on the rest of the input `s`. -/
def attemptCoord (c : Char) (s : List Char) : Option CoordGroups :=
  match coordHalf s with
  | none => none
  | some (lw, lf, r1) =>
    match r1.dropWhile pySpace with
    | [] => none
    | d :: r2 =>
      if d = 'E' || d = 'W' then
        match coordHalf r2 with
        | none => none
        | some (gw, gf, _) => some ⟨c, lw, lf, d, gw, gf⟩
      else none

/-- `re.search` of the coordinate pattern: attempts start only where the
first token `[NS]` can match. -/
def coordSearch : List Char → Option CoordGroups
  | [] => none
  | c :: rest =>
    if c = 'N' || c = 'S' then
      match attemptCoord c rest with
      | some g => some g
      | none => coordSearch rest
    else coordSearch rest

/-- `text_to_coordinates` from `scripts/ocr_functions.py`. -/
def text_to_coordinates (s : String) : Coord :=
  match coordSearch s.data with
  | none => ⟨0, 0⟩
  | some g =>
    ⟨ratOfParts g.latWhole g.latFrac * (if g.latDir = 'N' then 1 else -1),
     ratOfParts g.lonWhole g.lonFrac * (if g.lonDir = 'E' then 1 else -1)⟩

/-- Exactly `n` digit characters taken from the front of the input. -/
def takeDigitsExact : ℕ → List Char → Option (List Char × List Char)
  | 0, s => some ([], s)
  | _ + 1, [] => none
  | n + 1, c :: s =>
    if pyDigit c then (takeDigitsExact n s).map (fun p => (c :: p.1, p.2)) else none

/-- The six capture groups of the timestamp regex. -/
structure TsGroups where
  day : List Char
  month : List Char
  year : List Char
  hour : List Char
  minute : List Char
  second : List Char
deriving DecidableEq

/-- One attempt of the timestamp pattern
`(\d\x7b2\x7d)\D*(\d\x7b2\x7d)\D*(\d\x7b4\x7d)\s*(\d\x7b2\x7d)\D*(\d\x7b2\x7d)\s*\D*(\d\x7b2\x7d)`
at a fixed start position. -/
def attemptTs (s : List Char) : Option TsGroups := do
  let (d1, s) ← takeDigitsExact 2 s
  let s := s.dropWhile (fun c => !pyDigit c)
  let (d2, s) ← takeDigitsExact 2 s
  let s := s.dropWhile (fun c => !pyDigit c)
  let (d3, s) ← takeDigitsExact 4 s
  let s := s.dropWhile pySpace
  let (d4, s) ← takeDigitsExact 2 s
  let s := s.dropWhile (fun c => !pyDigit c)
  let (d5, s) ← takeDigitsExact 2 s
  let s := (s.dropWhile pySpace).dropWhile (fun c => !pyDigit c)
  let (d6, _) ← takeDigitsExact 2 s
  pure ⟨d1, d2, d3, d4, d5, d6⟩

/-- `re.search` of the timestamp pattern: scan over start positions. -/
def tsSearch : List Char → Option TsGroups
  | [] => none
  | c :: rest =>
    match attemptTs (c :: rest) with
    | some g => some g
    | none => tsSearch rest

/-- `text_to_timestamp` from `scripts/ocr_functions.py`. -/
def text_to_timestamp (s : String) : String :=
  match tsSearch s.data with
  | none => s
  | some g =>
    String.mk (g.day ++ '-' :: g.month ++ '-' :: g.year ++ ' ' ::
      g.hour ++ ':' :: g.minute ++ ':' :: g.second)

/-- The output dictionary of `text_to_speed`. -/
structure SpeedVal where
  speed : ℕ
  speed_units : String
deriving DecidableEq

/-- The part of the speed pattern after the digit group:
`\s*([A-Za-z]\x7b3,\x7d.*)`.  The unit group is the letter run together with
the remainder of the line (`.` does not match a newline). -/
def speedTail (digits rest : List Char) : Option (List Char × List Char) :=
  let t := rest.dropWhile pySpace
  if 3 ≤ (t.takeWhile Char.isAlpha).length then
    some (digits, t.takeWhile (fun c => c != '\n'))
  else none

/-- One width of the bounded group `(\d\x7b1,3\x7d)`: take exactly `k`
digits, then the tail pattern. -/
def trySpeedK (k : ℕ) (s : List Char) : Option (List Char × List Char) :=
  let ds := s.take k
  if ds.length = k ∧ ds.all pyDigit = true then speedTail ds (s.drop k) else none

/-- One attempt of the speed pattern at a fixed position: the group
`(\d\x7b1,3\x7d)` is greedy, so widths are tried longest first. -/
def attemptSpeed (s : List Char) : Option (List Char × List Char) :=
  match trySpeedK 3 s with
  | some g => some g
  | none =>
    match trySpeedK 2 s with
    | some g => some g
    | none => trySpeedK 1 s

/-- `re.search` of the speed pattern: scan over start positions. -/
def speedSearch : List Char → Option (List Char × List Char)
  | [] => none
  | c :: rest =>
    match attemptSpeed (c :: rest) with
    | some g => some g
    | none => speedSearch rest

/-- `text_to_speed` from `scripts/ocr_functions.py`. -/
def text_to_speed (s : String) : SpeedVal :=
  match speedSearch s.data with
  | none => ⟨0, "MPH"⟩
  | some (ds, us) => ⟨natOfDigits ds, String.mk us⟩

/-- One row of the intermediate table `dashcam.csv`, the output schema of
`dict_to_dataframe` and the input schema of `clean_dataframe`. -/
structure RowIn where
  frame_index : ℤ
  timestamp : String
  latitude : ℚ
  longitude : ℚ
  speed : ℤ
  speed_units : String
deriving DecidableEq

/-- A row after the reindexing block of `clean_dataframe`: `frame_delta` and
`frame_index` have been dropped and `new_index` appended. -/
structure RowIdx where
  timestamp : String
  latitude : ℚ
  longitude : ℚ
  speed : ℤ
  speed_units : String
  new_index : ℤ
deriving DecidableEq

/-- A row after the two `with_columns` calls adding `lat_delta` and
`lon_delta`.  The source never drops these two columns, so this is also the
row type of the value returned by `clean_dataframe`. -/
structure RowOut where
  timestamp : String
  latitude : ℚ
  longitude : ℚ
  speed : ℤ
  speed_units : String
  new_index : ℤ
  lat_delta : ℚ
  lon_delta : ℚ
deriving DecidableEq

/-- polars `col.diff().fill_null(0)`: the first difference, with the null in
the first position replaced by 0. -/
def diffFill0 {α : Type} [Sub α] [OfNat α 0] (xs : List α) : List α :=
  match xs with
  | [] => []
  | _ :: t => 0 :: t.zipWith (fun a b => a - b) xs

/-- polars `Series.mode()`: all values of maximal multiplicity.  polars does
not specify the order of the result; this model lists them in order of first
occurrence, and the theorems below use the result only when it is a
singleton. -/
def pl_mode {α : Type} [DecidableEq α] (l : List α) : List α :=
  l.eraseDups.filter (fun x => l.all (fun y => decide (l.count y ≤ l.count x)))

/-- Python `range(start, stop, step)` as a list: `none` models the
`ValueError` raised when `step` is zero. -/
def pyRange (start stop step : ℤ) : Option (List ℤ) :=
  if step = 0 then none
  else
    let cnt : ℕ :=
      if 0 < step then ((stop - start).toNat + (step.toNat - 1)) / step.toNat
      else ((start - stop).toNat + ((-step).toNat - 1)) / (-step).toNat
    some ((List.range cnt).map (fun i : ℕ => start + step * (i : ℤ)))

/-- polars `Series.mean()`: `none` models the null returned on an empty
series, which the source then crashes on by using it in arithmetic. -/
def pl_mean (l : List ℚ) : Option ℚ :=
  if l.length = 0 then none else some (l.sum / l.length)

/-- The square of polars `Series.std()` (sample variance, `ddof = 1`):
`none` models the null returned when fewer than two values are present.
Working with the variance keeps the model inside `ℚ`; the lemma
`absBand_iff_sqrt` relates it to the square root form of the source. -/
def pl_var (l : List ℚ) : Option ℚ :=
  if l.length < 2 then none else
  some ((l.map (fun x => (x - l.sum / l.length) ^ 2)).sum / ((l.length : ℚ) - 1))

/-- The filter condition
`abs(col) >= abs(mean) - k*std  AND  abs(col) <= abs(mean) + k*std`
of the source, restated without the square root: for `std = sqrt v` with
`v ≥ 0` and `k ≥ 0` the conjunction says `| |x| - |m| | ≤ k*std`, which is
equivalent to `(|x| - |m|)^2 ≤ k^2 * v` (proved in `absBand_iff_sqrt`). -/
def absBand (x m k v : ℚ) : Bool :=
  decide ((|x| - |m|) ^ 2 ≤ k ^ 2 * v)

/-- The reindexing block of `clean_dataframe` (map_functions.py lines 10-14):
`frame_delta` is the filled first difference of `frame_index`, the interval
is the first element polars reports for the mode of `frame_delta`, and
`new_index` is `range(0, interval * height, interval)`.  `none` models the
exceptions: indexing an empty mode series, and `range` with step zero. -/
def reindex_stage (rows : List RowIn) : Option (List RowIdx) :=
  let deltas := diffFill0 (rows.map (fun r => r.frame_index))
  match (pl_mode deltas).head? with
  | none => none
  | some interval =>
    match pyRange 0 (interval * rows.length) interval with
    | none => none
    | some idxs =>
      if idxs.length = rows.length then
        some ((rows.zip idxs).map (fun p =>
          ⟨p.1.timestamp, p.1.latitude, p.1.longitude, p.1.speed, p.1.speed_units, p.2⟩))
      else none

/-- The zero/domain pass of `clean_dataframe` (map_functions.py lines 16-18). -/
def domain_filter (rows : List RowIdx) : List RowIdx :=
  ((rows.filter (fun r => decide (r.latitude ≠ 0))).filter
      (fun r => decide (|r.latitude| ≤ 90))).filter
    (fun r => decide (|r.longitude| ≤ 180))

/-- The magnitude pass of `clean_dataframe` (map_functions.py lines 22-42):
all six statistics are computed before the three filters run, exactly as in
the source; `none` models the `TypeError` raised by arithmetic on the null
mean/std of an empty or one-row column. -/
def magnitude_stage (rows : List RowIdx) : Option (List RowIdx) :=
  match pl_mean (rows.map (fun r => r.latitude)), pl_var (rows.map (fun r => r.latitude)),
      pl_mean (rows.map (fun r => r.longitude)), pl_var (rows.map (fun r => r.longitude)),
      pl_mean (rows.map (fun r => (r.speed : ℚ))), pl_var (rows.map (fun r => (r.speed : ℚ))) with
  | some latMean, some latVar, some lonMean, some lonVar, some spMean, some spVar =>
    let r1 := rows.filter (fun r => absBand r.latitude latMean 2 latVar)
    let r2 := r1.filter (fun r => absBand r.longitude lonMean 2 lonVar)
    some (r2.filter (fun r => absBand (r.speed : ℚ) spMean 3 spVar))
  | _, _, _, _, _, _ => none

/-- The two `with_columns` calls adding `lat_delta` and `lon_delta`
(map_functions.py lines 47-48). -/
def annotateDeltas (rows : List RowIdx) : List RowOut :=
  (rows.zip ((diffFill0 (rows.map (fun r => r.latitude))).zip
      (diffFill0 (rows.map (fun r => r.longitude))))).map
    (fun p => ⟨p.1.timestamp, p.1.latitude, p.1.longitude, p.1.speed, p.1.speed_units,
               p.1.new_index, p.2.1, p.2.2⟩)

/-- The delta pass of `clean_dataframe` (map_functions.py lines 47-61): the
four statistics are computed before either filter runs, but `df.height` is
re-read for the second filter after the first has dropped rows, as in the
source.  `none` models arithmetic on null statistics and the
`ZeroDivisionError` of `100 / df.height` on an empty frame. -/
def delta_stage (rows : List RowIdx) : Option (List RowOut) :=
  let ann := annotateDeltas rows
  match pl_mean (ann.map (fun r => r.lat_delta)), pl_var (ann.map (fun r => r.lat_delta)),
      pl_mean (ann.map (fun r => r.lon_delta)), pl_var (ann.map (fun r => r.lon_delta)) with
  | some dlatMean, some dlatVar, some dlonMean, some dlonVar =>
    if ann.length = 0 then none
    else
      let f1 := ann.filter (fun r =>
        absBand r.lat_delta dlatMean (2 * (1 + 100 / (ann.length : ℚ))) dlatVar)
      if f1.length = 0 then none
      else
        some (f1.filter (fun r =>
          absBand r.lon_delta dlonMean (2 * (1 + 100 / (f1.length : ℚ))) dlonVar))
  | _, _, _, _ => none

/-- `clean_dataframe` from `scripts/map_functions.py`: reindex, zero/domain
pass, magnitude pass, delta pass, in source order.  (The `write_csv` side
effect is outside the value model; `clean_columns` below tracks the column
set of the persisted table.) -/
def clean_dataframe (rows : List RowIn) : Option (List RowOut) := do
  let r1 ← reindex_stage rows
  let r3 ← magnitude_stage (domain_filter r1)
  delta_stage r3

/-- Schema effect of a polars `with_columns` deriving a new column `new`
from an existing column `src`: `ColumnNotFoundError` (`none`) if `src` is
absent, otherwise `new` is replaced in place when present and appended
otherwise. -/
def withColumnFrom (s : List String) (src new : String) : Option (List String) :=
  if src ∈ s then some (if new ∈ s then s else s ++ [new]) else none

/-- Schema effect of polars `DataFrame.drop`: `none` when the column is
absent. -/
def dropColumn (s : List String) (c : String) : Option (List String) :=
  if c ∈ s then some (s.erase c) else none

/-- Column-level model of `clean_dataframe`: which columns each polars call
needs and how the column list evolves.  `none` is a missing-column error.
The `with_columns` adding `new_index` builds a fresh series, so it needs no
source column; the filters read `latitude`, `longitude` and `speed`; the
delta pass adds `lat_delta` and `lon_delta`, which are never dropped. -/
def clean_columns (s : List String) : Option (List String) := do
  let s1 ← withColumnFrom s "frame_index" "frame_delta"
  let s2 := if "new_index" ∈ s1 then s1 else s1 ++ ["new_index"]
  let s3 ← dropColumn s2 "frame_delta"
  let s4 ← dropColumn s3 "frame_index"
  if "latitude" ∈ s4 ∧ "longitude" ∈ s4 ∧ "speed" ∈ s4 then do
    let s5 ← withColumnFrom s4 "latitude" "lat_delta"
    withColumnFrom s5 "longitude" "lon_delta"
  else none

/-- The column list of the persisted intermediate table `dashcam.csv`. -/
def inputColumns : List String :=
  ["frame_index", "timestamp", "latitude", "longitude", "speed", "speed_units"]

/-- The column list `clean_dataframe` actually produces and persists as
`filtered_dashcam.csv`. -/
def outputColumns : List String :=
  ["timestamp", "latitude", "longitude", "speed", "speed_units",
   "new_index", "lat_delta", "lon_delta"]

/-- `dict_to_dataframe` from `scripts/ocr_functions.py`: builds one frame
per dictionary and inner-joins them on `frame_index` (polars `join` defaults
to an inner join), time with gps first, then with speed.  The dictionaries
are association lists in insertion order; Python dict keys are unique, but
no theorem below needs that. -/
def dict_to_dataframe (timeDict : List (ℤ × String)) (gpsDict : List (ℤ × Coord))
    (speedDict : List (ℤ × SpeedVal)) : List RowIn :=
  let tg := timeDict.flatMap (fun t =>
    (gpsDict.filter (fun g => decide (g.1 = t.1))).map (fun g => (t.1, t.2, g.2)))
  tg.flatMap (fun p =>
    (speedDict.filter (fun sp => decide (sp.1 = p.1))).map (fun sp =>
      ⟨p.1, p.2.1, p.2.2.latitude, p.2.2.longitude, (sp.2.speed : ℤ), sp.2.speed_units⟩))

/-- The one-row dataset used to refute C2 as stated. -/
def singleRow : RowIn := ⟨5, "t", 1, 2, 3, "u"⟩

/-- A dataset row for the Reindexer example of the spec. -/
def demoRow (k : ℤ) : RowIn := ⟨k, "t", 30, -97, 70, "MPH"⟩

/-- The Reindexer example dataset with original indices `[0, 3, 6, 10, 13]`. -/
def demoRows : List RowIn := [demoRow 0, demoRow 3, demoRow 6, demoRow 10, demoRow 13]

/-- A three-row demonstration input for the Outlier Filter. -/
def cleanDemoRows : List RowIn :=
  [⟨0, "t", 10, 20, 5, "MPH"⟩, ⟨1, "t", 10, 20, 5, "MPH"⟩, ⟨2, "t", 10, 20, 5, "MPH"⟩]

/-- Rows of `cleanDemoRows` after the Reindexer. -/
def cleanDemoIdx : List RowIdx :=
  [⟨"t", 10, 20, 5, "MPH", 0⟩, ⟨"t", 10, 20, 5, "MPH", 1⟩, ⟨"t", 10, 20, 5, "MPH", 2⟩]

/-- The value `clean_dataframe` returns on `cleanDemoRows`. -/
def cleanDemoOut : List RowOut :=
  [⟨"t", 10, 20, 5, "MPH", 0, 0, 0⟩, ⟨"t", 10, 20, 5, "MPH", 1, 0, 0⟩,
   ⟨"t", 10, 20, 5, "MPH", 2, 0, 0⟩]

/-- Python `str.rstrip('/')`. -/
def rstripSlash (s : List Char) : List Char :=
  (s.reverse.dropWhile (fun c => c = '/')).reverse

/-- The image-file pattern `\.(jpg|jpeg|png)$` with `re.IGNORECASE` under
`re.search`: true when the name ends with one of the three extensions,
case-insensitively (`$` also matches just before one trailing newline). -/
def isImageFile (name : List Char) : Bool :=
  let core := if name.getLast? = some '\n' then name.dropLast else name
  let lower := core.map Char.toLower
  ([".jpg", ".jpeg", ".png"] : List String).any (fun ext => ext.data.isSuffixOf lower)

/-- Group 1 of the numeric-suffix pattern `\D*(\d+)\D*` under `re.search`:
the first maximal digit run.  `none` models the `AttributeError` raised by
`.group(1)` on a failed search when the name has no digit. -/
def firstDigitRun (s : List Char) : Option (List Char) :=
  let t := s.dropWhile (fun c => !pyDigit c)
  if t.takeWhile pyDigit = [] then none else some (t.takeWhile pyDigit)

/-- Splits a list at its last `/`: the greedy `(\S*)/` of the directory
pattern consumes everything up to the last slash of the non-whitespace
run. -/
def lastSlashSplit : List Char → Option (List Char × List Char)
  | [] => none
  | c :: rest =>
    match lastSlashSplit rest with
    | some (x, y) => some (c :: x, y)
    | none => if c = '/' then some ([], rest) else none

/-- One attempt of `(\S*)/(\D*)` after a matched `../frames/` literal:
`\S*` is the maximal non-whitespace run, the consumed `/` is the last slash
inside it, and group 3 is the maximal non-digit run after that slash
(continuing past the run, since `\D` also matches whitespace). -/
def attemptDir (s : List Char) : Option (List Char) :=
  match lastSlashSplit (s.takeWhile (fun c => !pySpace c)) with
  | none => none
  | some (_, afterRun) =>
    some ((afterRun ++ s.dropWhile (fun c => !pySpace c)).takeWhile (fun c => !pyDigit c))

/-- `re.search` of `\.\./(frames)/(\S*)/(\D*)`: scan for an occurrence of
the literal `../frames/`, then attempt the tail pattern; group 3 is
returned (`.group(3)` in the source). -/
def dirSearch : List Char → Option (List Char)
  | [] => none
  | c :: rest =>
    if "../frames/".data.isPrefixOf (c :: rest) then
      match attemptDir ((c :: rest).drop 10) with
      | some g => some g
      | none => dirSearch rest
    else dirSearch rest

/-- The per-frame dictionary value produced by `image_directory_to_dict`:
one parsed attribute, or the error value recorded for an unrecognized
directory kind (the dict value mapping the key Error to Unrecognized Datatype). -/
inductive Entry where
  | gpsE : Coord → Entry
  | speedE : SpeedVal → Entry
  | timeE : String → Entry
  | errE : Entry
deriving DecidableEq

/-- Sequential fallible map: the first failure aborts (Python raises at
the first offending element). -/
def optionMapList {α β : Type} (g : α → Option β) : List α → Option (List β)
  | [] => some []
  | x :: xs =>
    match g x with
    | none => none
    | some y =>
      match optionMapList g xs with
      | none => none
      | some ys => some (y :: ys)

/-- Python dict assignment `d[k] = v`: overwrite in place, else append. -/
def dictInsert (d : List (ℕ × Entry)) (k : ℕ) (v : Entry) : List (ℕ × Entry) :=
  if d.any (fun p => p.1 == k) then
    d.map (fun p => if p.1 = k then (k, v) else p)
  else d ++ [(k, v)]

/-- Stable insertion preserving the relative order of equal keys. -/
def insertByKey (x : ℕ × String × String) :
    List (ℕ × String × String) → List (ℕ × String × String)
  | [] => [x]
  | y :: ys => if x.1 ≤ y.1 then x :: y :: ys else y :: insertByKey x ys

/-- Python `list.sort` with an integer key (stable). -/
def sortByKey (l : List (ℕ × String × String)) : List (ℕ × String × String) :=
  l.foldr insertByKey []

/-- `image_directory_to_dict` from `scripts/ocr_functions.py`.  The
directory listing (`os.listdir`) and the OCR output of each image
(`image_to_text`, an external engine treated as a black box) are passed in as a list of
(filename, extracted text) pairs; the existence assertion on the directory
and the successful `cv2.imread` are environmental preconditions outside
the model.  `none` models an uncaught exception: the assertion on an
image-free directory, the `AttributeError` of the numeric-suffix regex on
a digit-free filename (raised while sorting, before the directory kind is
read), and the `AttributeError` of the directory regex on a path that does
not match `../frames/...`. -/
def image_directory_to_dict (input_dir : String) (listing : List (String × String)) :
    Option (List (ℕ × Entry)) :=
  let dir := rstripSlash input_dir.data
  let image_files := listing.filter (fun f => isImageFile f.1.data)
  if image_files = [] then none
  else
    match optionMapList
        (fun f => (firstDigitRun f.1.data).map (fun run => (natOfDigits run, f))) image_files with
    | none => none
    | some keyed =>
      match dirSearch dir with
      | none => none
      | some dataTypeChars =>
        let data_type := String.mk dataTypeChars
        some ((sortByKey keyed).foldl (fun d p =>
          dictInsert d p.1 (
            if data_type = "gps" then Entry.gpsE (text_to_coordinates p.2.2)
            else if data_type = "speed" then Entry.speedE (text_to_speed p.2.2)
            else if data_type = "time" then Entry.timeE (text_to_timestamp p.2.2)
            else Entry.errE)) [])

theorem takeWhile_of_all {α : Type} {p : α → Bool} {l : List α} (h : ∀ c ∈ l, p c = true) :
    l.takeWhile p = l := by
  induction l with
  | nil => rfl
  | cons c t ih =>
    have hc := h c (by simp)
    have ht := ih (fun x hx => h x (List.mem_cons_of_mem _ hx))
    simp [List.takeWhile_cons, hc, ht]

theorem dropWhile_of_all {α : Type} {p : α → Bool} {l : List α} (h : ∀ c ∈ l, p c = true) :
    l.dropWhile p = [] := by
  induction l with
  | nil => rfl
  | cons c t ih =>
    have hc := h c (by simp)
    have ht := ih (fun x hx => h x (List.mem_cons_of_mem _ hx))
    simp [List.dropWhile_cons, hc, ht]

theorem dropWhile_append_of_all {α : Type} {p : α → Bool} {a : List α} (b : List α)
    (h : ∀ c ∈ a, p c = true) : (a ++ b).dropWhile p = b.dropWhile p := by
  induction a with
  | nil => rfl
  | cons c t ih =>
    have hc := h c (by simp)
    have ht := ih (fun x hx => h x (List.mem_cons_of_mem _ hx))
    simp [List.dropWhile_cons, hc, ht]

theorem takeWhile_append_of_all {α : Type} {p : α → Bool} {a : List α} (b : List α)
    (h : ∀ c ∈ a, p c = true) : (a ++ b).takeWhile p = a ++ b.takeWhile p := by
  induction a with
  | nil => rfl
  | cons c t ih =>
    have hc := h c (by simp)
    have ht := ih (fun x hx => h x (List.mem_cons_of_mem _ hx))
    simp [List.takeWhile_cons, hc, ht]

theorem dropWhile_cons_of_neg {α : Type} {p : α → Bool} {c : α} {l : List α} (h : p c = false) :
    (c :: l).dropWhile p = c :: l := by
  simp [List.dropWhile_cons, h]

theorem takeWhile_cons_of_neg {α : Type} {p : α → Bool} {c : α} {l : List α} (h : p c = false) :
    (c :: l).takeWhile p = [] := by
  simp [List.takeWhile_cons, h]

/-- C1: a frame index appears in the joined table exactly when it is a key
of all three attribute streams: the two polars joins are inner joins, so a
row is emitted only for keys present in the time, gps and speed
dictionaries alike, and a key missing from any one stream yields no row. -/
theorem dict_to_dataframe_inner_join_keys (timeDict : List (ℤ × String))
    (gpsDict : List (ℤ × Coord)) (speedDict : List (ℤ × SpeedVal)) (k : ℤ) :
    (∃ r ∈ dict_to_dataframe timeDict gpsDict speedDict, r.frame_index = k) ↔
      (k ∈ timeDict.map Prod.fst ∧ k ∈ gpsDict.map Prod.fst ∧ k ∈ speedDict.map Prod.fst) := by
  simp only [dict_to_dataframe, List.mem_flatMap, List.mem_map, List.mem_filter,
    decide_eq_true_eq]
  constructor
  · rintro ⟨r, ⟨p, ⟨t, ht, g, ⟨hg, hgk⟩, rfl⟩, sp, ⟨hsp, hspk⟩, rfl⟩, rfl⟩
    exact ⟨⟨t, ht, rfl⟩, ⟨g, hg, by simpa using hgk⟩, ⟨sp, hsp, by simpa using hspk⟩⟩
  · rintro ⟨⟨t, ht, rfl⟩, ⟨g, hg, hgk⟩, ⟨sp, hsp, hspk⟩⟩
    exact ⟨⟨t.1, t.2, g.2.latitude, g.2.longitude, (sp.2.speed : ℤ), sp.2.speed_units⟩,
      ⟨⟨t.1, t.2, g.2⟩, ⟨t, ht, g, ⟨hg, hgk⟩, rfl⟩, sp, ⟨hsp, hspk⟩, rfl⟩, rfl⟩

/-- C2 counterexample: on the non-empty one-row dataset `[singleRow]` there
are no non-null frame-index differences at all; the filled difference column
is `[0]`, the code picks interval 0 and `range(0, 0, 0)` raises
`ValueError`, so no reindexed dataset of length 1 is produced, contrary to
the claim. -/
theorem reindexer_single_row_cex :
    reindex_stage [singleRow] = none ∧ ([singleRow] : List RowIn) ≠ [] := by decide

/-- A unique nonzero mode of a zero-headed list is also a most frequent
value of its tail. -/
theorem count_tail_le_of_mode {l : List ℤ} {m : ℤ} (hm : pl_mode l = [m]) (hne : m ≠ 0)
    (hl : ∃ t, l = 0 :: t) : ∀ y : ℤ, l.tail.count y ≤ l.tail.count m := by
  obtain ⟨t, rfl⟩ := hl
  intro y
  have hmem : m ∈ pl_mode ((0 : ℤ) :: t) := by rw [hm]; exact List.mem_singleton_self m
  have hall := (List.mem_filter.mp hmem).2
  rw [List.all_eq_true] at hall
  simp only [List.tail_cons]
  by_cases hy : y ∈ ((0 : ℤ) :: t)
  · have h1 : ((0 : ℤ) :: t).count y ≤ ((0 : ℤ) :: t).count m :=
      of_decide_eq_true (hall y hy)
    simp only [List.count_cons, beq_iff_eq] at h1
    split at h1 <;> split at h1 <;> omega
  · have hyt : y ∉ t := fun hyt => hy (List.mem_cons_of_mem _ hyt)
    simp [List.count_eq_zero.mpr hyt]

/-- C2 (amended): for every dataset whose filled frame-index difference
column has a unique mode `m > 0`, the Reindexer succeeds, `m` is also a
most frequent value among the non-null differences, and `frame_index` is
replaced by the strictly increasing sequence `0, m, 2m, ...` of the same
length as the input. -/
theorem reindexer_mode_spec (rows : List RowIn) (m : ℤ)
    (hmode : pl_mode (diffFill0 (rows.map (fun r => r.frame_index))) = [m])
    (hpos : 0 < m) :
    ∃ out, reindex_stage rows = some out ∧
      out.length = rows.length ∧
      out.map (fun r => r.new_index) = (List.range rows.length).map (fun i : ℕ => m * (i : ℤ)) ∧
      (out.map (fun r => r.new_index)).Pairwise (· < ·) ∧
      (∀ y : ℤ, ((diffFill0 (rows.map (fun r => r.frame_index))).tail).count y ≤
        ((diffFill0 (rows.map (fun r => r.frame_index))).tail).count m) := by
  have hne : rows ≠ [] := by
    intro h
    subst h
    have h0 : pl_mode (diffFill0 (List.map (fun r => RowIn.frame_index r) ([] : List RowIn))) =
        ([] : List ℤ) := rfl
    rw [h0] at hmode
    exact List.noConfusion hmode
  have hstep : m ≠ 0 := ne_of_gt hpos
  have hM : 0 < m.toNat := by omega
  have hcnt : ((m * (rows.length : ℤ) - 0).toNat + (m.toNat - 1)) / m.toNat = rows.length := by
    have h1 : m * (rows.length : ℤ) - 0 = ((m.toNat * rows.length : ℕ) : ℤ) := by
      push_cast [Int.toNat_of_nonneg hpos.le]
      ring
    rw [h1, Int.toNat_natCast, add_comm, Nat.add_mul_div_left _ _ hM,
      Nat.div_eq_of_lt (by omega)]
    omega
  have hrange : pyRange 0 (m * (rows.length : ℤ)) m =
      some ((List.range rows.length).map (fun i : ℕ => 0 + m * (i : ℤ))) := by
    simp only [pyRange, if_neg hstep, if_pos hpos, hcnt]
  have hhead : (pl_mode (diffFill0 (rows.map (fun r => r.frame_index)))).head? = some m := by
    rw [hmode]
    rfl
  have hstage : reindex_stage rows =
      some ((rows.zip ((List.range rows.length).map (fun i : ℕ => 0 + m * (i : ℤ)))).map (fun p =>
        (⟨p.1.timestamp, p.1.latitude, p.1.longitude, p.1.speed, p.1.speed_units, p.2⟩ :
          RowIdx))) := by
    simp [reindex_stage, hhead, hrange]
  have hzip : ((rows.zip ((List.range rows.length).map (fun i : ℕ => 0 + m * (i : ℤ)))).map (fun p =>
      (⟨p.1.timestamp, p.1.latitude, p.1.longitude, p.1.speed, p.1.speed_units, p.2⟩ :
        RowIdx))).map (fun r => r.new_index) =
      (List.range rows.length).map (fun i : ℕ => m * (i : ℤ)) := by
    rw [List.map_map]
    have hsnd : ((fun r : RowIdx => r.new_index) ∘ (fun p : RowIn × ℤ =>
        (⟨p.1.timestamp, p.1.latitude, p.1.longitude, p.1.speed, p.1.speed_units, p.2⟩ :
          RowIdx))) = Prod.snd := rfl
    rw [hsnd, List.map_snd_zip _ _ (by simp)]
    simp
  refine ⟨_, hstage, by simp, hzip, ?_, ?_⟩
  · rw [hzip, List.pairwise_map]
    exact (List.pairwise_lt_range rows.length).imp
      (fun h => mul_lt_mul_of_pos_left (by exact_mod_cast h) hpos)
  · exact count_tail_le_of_mode hmode hstep
      ⟨(diffFill0 (rows.map (fun r => r.frame_index))).tail, by
        obtain ⟨r0, rs, rfl⟩ := List.exists_cons_of_ne_nil hne
        simp [diffFill0]⟩

/-- Witness for C2 (amended): on original indices `[0, 3, 6, 10, 13]` the
mode of the differences is 3 and the new indices are `[0, 3, 6, 9, 12]`,
length preserved. -/
theorem reindexer_mode_spec_witness :
    ∃ out, reindex_stage demoRows = some out ∧ out.length = 5 ∧
      out.map (fun r => r.new_index) = [0, 3, 6, 9, 12] := by
  obtain ⟨out, h1, h2, h3, _, _⟩ := reindexer_mode_spec demoRows 3 (by decide) (by decide)
  refine ⟨out, h1, ?_, ?_⟩
  · rw [h2]
    decide
  · rw [h3]
    decide

/-- The squared comparison of `absBand` is exactly the pair of comparisons
of the source against `|mean| ± k*std` with `std = Real.sqrt v`. -/
theorem absBand_iff_sqrt (x m k v : ℚ) (hv : 0 ≤ v) (hk : 0 ≤ k) :
    absBand x m k v = true ↔
      ((|(m : ℝ)| - k * Real.sqrt v ≤ |(x : ℝ)|) ∧
        (|(x : ℝ)| ≤ |(m : ℝ)| + k * Real.sqrt v)) := by
  have hs : (0 : ℝ) ≤ (k : ℝ) * Real.sqrt v := by positivity
  have hsq : ((k : ℝ) * Real.sqrt v) ^ 2 = (k : ℝ) ^ 2 * (v : ℝ) := by
    rw [mul_pow, Real.sq_sqrt (by exact_mod_cast hv)]
  rw [absBand, decide_eq_true_eq,
    show ((|x| - |m|) ^ 2 ≤ k ^ 2 * v) ↔
      (((|x| - |m| : ℚ) : ℝ) ^ 2 ≤ ((k : ℚ) : ℝ) ^ 2 * ((v : ℚ) : ℝ)) from by
        exact_mod_cast Iff.rfl,
    ← hsq]
  constructor
  · intro h
    obtain ⟨h1, h2⟩ := abs_le_of_sq_le_sq' h hs
    push_cast at h1 h2
    constructor <;> linarith
  · rintro ⟨h1, h2⟩
    refine sq_le_sq' ?_ ?_ <;> push_cast <;> linarith

/-- Every row of `annotateDeltas l` carries the latitude and longitude of a
row of `l`. -/
theorem mem_annotateDeltas {l : List RowIdx} {r : RowOut} (h : r ∈ annotateDeltas l) :
    ∃ q ∈ l, q.latitude = r.latitude ∧ q.longitude = r.longitude := by
  unfold annotateDeltas at h
  obtain ⟨p, hp, rfl⟩ := List.mem_map.mp h
  exact ⟨p.1, (List.of_mem_zip hp).1, rfl, rfl⟩

/-- The delta pass only emits annotated copies of rows of its input. -/
theorem delta_stage_latlon {l : List RowIdx} {out : List RowOut}
    (h : delta_stage l = some out) :
    ∀ r ∈ out, ∃ q ∈ l, q.latitude = r.latitude ∧ q.longitude = r.longitude := by
  simp only [delta_stage] at h
  split at h
  · split at h
    · exact Option.noConfusion h
    · split at h
      · exact Option.noConfusion h
      · rw [Option.some_inj] at h
        subst h
        intro r hr
        exact mem_annotateDeltas (List.mem_filter.mp (List.mem_filter.mp hr).1).1
  · exact Option.noConfusion h

/-- The magnitude pass only keeps rows of its input. -/
theorem magnitude_stage_subset {l out : List RowIdx} (h : magnitude_stage l = some out) :
    ∀ q ∈ out, q ∈ l := by
  simp only [magnitude_stage] at h
  split at h
  · rw [Option.some_inj] at h
    subst h
    intro q hq
    exact (List.mem_filter.mp (List.mem_filter.mp (List.mem_filter.mp hq).1).1).1
  · exact Option.noConfusion h

/-- Rows surviving the zero/domain pass satisfy its three conditions. -/
theorem domain_filter_props {l : List RowIdx} {q : RowIdx} (h : q ∈ domain_filter l) :
    q.latitude ≠ 0 ∧ |q.latitude| ≤ 90 ∧ |q.longitude| ≤ 180 := by
  unfold domain_filter at h
  have h3 := List.mem_filter.mp h
  have h2 := List.mem_filter.mp h3.1
  have h1 := List.mem_filter.mp h2.1
  exact ⟨of_decide_eq_true h1.2, of_decide_eq_true h2.2, of_decide_eq_true h3.2⟩

/-- C3: every row of the cleaned dataset returned by `clean_dataframe`
satisfies `latitude ≠ 0`, `|latitude| ≤ 90` and `|longitude| ≤ 180`: the
zero/domain pass drops every violating row and the later passes only remove
rows (or append delta columns), never change latitude or longitude. -/
theorem clean_dataframe_domain_invariant (rows : List RowIn) (out : List RowOut) (r : RowOut)
    (h : clean_dataframe rows = some out) (hr : r ∈ out) :
    r.latitude ≠ 0 ∧ |r.latitude| ≤ 90 ∧ |r.longitude| ≤ 180 := by
  unfold clean_dataframe at h
  simp only [Option.bind_eq_bind, Option.bind_eq_some] at h
  obtain ⟨r1, h1, r3, h3, h4⟩ := h
  obtain ⟨q, hq, hlat, hlon⟩ := delta_stage_latlon h4 r hr
  have hprops := domain_filter_props (magnitude_stage_subset h3 q hq)
  rw [hlat, hlon] at hprops
  exact hprops

/-- Concrete end-to-end evaluation of `clean_dataframe` on `cleanDemoRows`. -/
theorem cleanDemo_eval : clean_dataframe cleanDemoRows = some cleanDemoOut := by
  have h1 : reindex_stage cleanDemoRows = some cleanDemoIdx := by decide
  have h2 : domain_filter cleanDemoIdx = cleanDemoIdx := by decide
  have h3 : magnitude_stage cleanDemoIdx = some cleanDemoIdx := by
    norm_num [magnitude_stage, pl_mean, pl_var, absBand, cleanDemoIdx, List.filter]
  have h4 : delta_stage cleanDemoIdx = some cleanDemoOut := by
    norm_num [delta_stage, annotateDeltas, diffFill0, pl_mean, pl_var, absBand, cleanDemoIdx,
      cleanDemoOut, List.filter, List.zipWith]
  simp [clean_dataframe, h1, h2, h3, h4]

/-- Witness for C3: on `cleanDemoRows` the filter succeeds and its first
output row satisfies the domain invariant. -/
theorem clean_dataframe_domain_invariant_witness :
    clean_dataframe cleanDemoRows = some cleanDemoOut ∧
      ((⟨"t", 10, 20, 5, "MPH", 0, 0, 0⟩ : RowOut).latitude ≠ 0 ∧
        |(⟨"t", 10, 20, 5, "MPH", 0, 0, 0⟩ : RowOut).latitude| ≤ 90 ∧
        |(⟨"t", 10, 20, 5, "MPH", 0, 0, 0⟩ : RowOut).longitude| ≤ 180) :=
  ⟨cleanDemo_eval,
    clean_dataframe_domain_invariant cleanDemoRows cleanDemoOut _ cleanDemo_eval (by decide)⟩

/-- Appending a column keeps a schema duplicate-free. -/
theorem nodup_addCol {l : List String} {a : String} (h : l.Nodup) :
    (if a ∈ l then l else l ++ [a]).Nodup := by
  split
  · exact h
  · next ha => simp [List.nodup_append, h, ha]

/-- A column of a schema extended by `a` was present before or is `a`. -/
theorem mem_addCol_elim {l : List String} {a b : String}
    (h : b ∈ (if a ∈ l then l else l ++ [a])) : b ∈ l ∨ b = a := by
  split at h
  · exact Or.inl h
  · rcases List.mem_append.mp h with h | h
    · exact Or.inl h
    · exact Or.inr (List.mem_singleton.mp h)

/-- C7 (amended): `clean_dataframe` is not idempotent in the executable
sense: its output schema never contains `frame_index` (the column is
dropped and replaced by `new_index`), while the first statement of
`clean_dataframe` reads `frame_index`; hence re-applying the filter to any
table it has produced raises a missing-column error instead of removing
zero additional rows. -/
theorem clean_columns_not_idempotent (s t : List String) (hnd : s.Nodup)
    (h : clean_columns s = some t) : clean_columns t = none := by
  have hfi : "frame_index" ∉ t := by
    simp only [clean_columns, withColumnFrom, dropColumn, Option.bind_eq_bind,
      Option.bind_eq_some, Option.ite_none_right_eq_some, Option.some_inj] at h
    obtain ⟨s1, ⟨hfis, rfl⟩, s3, ⟨hfd3, rfl⟩, s4, ⟨hfi4, rfl⟩, hcond, s5, ⟨hlat, rfl⟩,
      hlon, rfl⟩ := h
    intro hmem
    rcases mem_addCol_elim hmem with hmem | hfalse
    · rcases mem_addCol_elim hmem with hmem | hfalse
      · have hs3 : ((if "new_index" ∈ (if "frame_delta" ∈ s then s else s ++ ["frame_delta"])
            then (if "frame_delta" ∈ s then s else s ++ ["frame_delta"])
            else (if "frame_delta" ∈ s then s else s ++ ["frame_delta"]) ++
              ["new_index"]).erase "frame_delta").Nodup :=
          (nodup_addCol (nodup_addCol hnd)).erase _
        exact hs3.not_mem_erase hmem
      · exact absurd hfalse (by decide)
    · exact absurd hfalse (by decide)
  simp only [clean_columns, withColumnFrom, dropColumn, Option.bind_eq_bind]
  rw [if_neg hfi]
  rfl

/-- Witness for C7 (amended): a second run on the schema that
`clean_dataframe` persists fails with a missing-column error. -/
theorem clean_columns_not_idempotent_witness : clean_columns outputColumns = none :=
  clean_columns_not_idempotent inputColumns outputColumns (by decide) (by decide)

/-- C7 counterexample: `clean_dataframe` succeeds on the concrete dataset
`cleanDemoRows`, its output schema is `outputColumns` (without
`frame_index`), and applying the filter to a table with that schema fails
with a missing-column error — it does not remove zero additional rows, it
refuses to run. -/
theorem clean_filter_not_idempotent_cex :
    clean_dataframe cleanDemoRows = some cleanDemoOut ∧
      clean_columns inputColumns = some outputColumns ∧
      clean_columns outputColumns = none :=
  ⟨cleanDemo_eval, by decide, by decide⟩

/-- C8 counterexample: on the persisted input schema the cleaned table
keeps the column `lat_delta`, which is not among the six columns the claim
allows, so the output does not have exactly the claimed columns. -/
theorem filtered_columns_cex :
    clean_columns inputColumns = some outputColumns ∧
      "lat_delta" ∈ outputColumns ∧
      "lat_delta" ∉ ["new_index", "timestamp", "latitude", "longitude", "speed",
        "speed_units"] := by
  refine ⟨by decide, by decide, by decide⟩

/-- C8 (amended): the cleaned table persisted as `filtered_dashcam.csv` has
exactly the columns `timestamp, latitude, longitude, speed, speed_units,
new_index, lat_delta, lon_delta`: `frame_index` and the `frame_delta`
column of the Reindexer are discarded after use, but the two delta columns
of the delta pass are not dropped and remain in the output. -/
theorem filtered_columns_spec :
    clean_columns inputColumns = some outputColumns ∧
      "frame_index" ∉ outputColumns ∧ "frame_delta" ∉ outputColumns := by
  refine ⟨by decide, by decide, by decide⟩

theorem space_not_alpha {c : Char} (h : pySpace c = true) : c.isAlpha = false := by
  simp only [pySpace, Bool.or_eq_true, decide_eq_true_eq] at h
  rcases h with ((((rfl | rfl) | rfl) | rfl) | rfl) | rfl <;> decide

theorem space_not_digit {c : Char} (h : pySpace c = true) : pyDigit c = false := by
  simp only [pySpace, Bool.or_eq_true, decide_eq_true_eq] at h
  rcases h with ((((rfl | rfl) | rfl) | rfl) | rfl) | rfl <;> decide

theorem digit_not_alpha {c : Char} (h : pyDigit c = true) : c.isAlpha = false := by
  simp only [pyDigit, Char.isDigit, Char.isAlpha, Char.isUpper, Char.isLower,
    Bool.and_eq_true, Bool.or_eq_false_iff, Bool.and_eq_false_iff, decide_eq_true_eq,
    decide_eq_false_iff_not, ge_iff_le, UInt32.le_def, BitVec.le_def] at *
  have e48 : (UInt32.toBitVec 48).toNat = 48 := by decide
  have e57 : (UInt32.toBitVec 57).toNat = 57 := by decide
  have e65 : (UInt32.toBitVec 65).toNat = 65 := by decide
  have e90 : (UInt32.toBitVec 90).toNat = 90 := by decide
  have e97 : (UInt32.toBitVec 97).toNat = 97 := by decide
  have e122 : (UInt32.toBitVec 122).toNat = 122 := by decide
  rw [e48, e57] at h
  rw [e65, e90, e97, e122]
  omega

theorem alpha_not_space {c : Char} (h : c.isAlpha = true) : pySpace c = false := by
  cases hs : pySpace c
  · rfl
  · rw [space_not_alpha hs] at h
    exact Bool.noConfusion h

theorem alpha_not_digit {c : Char} (h : c.isAlpha = true) : pyDigit c = false := by
  cases hd : pyDigit c
  · rfl
  · rw [digit_not_alpha hd] at h
    exact Bool.noConfusion h

theorem alpha_ne_newline {c : Char} (h : c.isAlpha = true) : (c != '\n') = true := by
  rw [bne_iff_ne]
  rintro rfl
  exact absurd h (by decide)

/-- `takeDigitsExact` consumes exactly a leading block of digits. -/
theorem takeDigitsExact_append {d : List Char} (r : List Char)
    (hd : ∀ c ∈ d, pyDigit c = true) : takeDigitsExact d.length (d ++ r) = some (d, r) := by
  induction d with
  | nil => rfl
  | cons c t ih =>
    simp only [List.length_cons, List.cons_append, takeDigitsExact, hd c (by simp), if_true]
    rw [List.append_eq, ih (fun x hx => hd x (List.mem_cons_of_mem _ hx))]
    rfl

/-- A width of the speed digit group fails when its window contains a
non-digit. -/
theorem trySpeedK_none {k : ℕ} {s : List Char} (c : Char) (hc : c ∈ s.take k)
    (hnd : pyDigit c = false) : trySpeedK k s = none := by
  unfold trySpeedK
  rw [if_neg]
  rintro ⟨-, hall⟩
  rw [List.all_eq_true] at hall
  rw [hall c hc] at hnd
  exact Bool.noConfusion hnd

/-- The head of a whitespace-then-letters block is not a digit. -/
theorem head_wsus_nondigit {ws us : List Char} (hw : ∀ c ∈ ws, pySpace c = true)
    (ha : ∀ c ∈ us, c.isAlpha = true) (hne : us ≠ []) :
    ∃ e rest, ws ++ us = e :: rest ∧ pyDigit e = false := by
  cases ws with
  | nil =>
    cases us with
    | nil => exact absurd rfl hne
    | cons u t => exact ⟨u, t, rfl, alpha_not_digit (ha u (by simp))⟩
  | cons w t => exact ⟨w, t ++ us, rfl, space_not_digit (hw w (by simp))⟩

/-- The tail of the speed pattern accepts whitespace followed by at least
three letters and captures the letters. -/
theorem speedTail_exact {ds ws us : List Char} (hw : ∀ c ∈ ws, pySpace c = true)
    (ha : ∀ c ∈ us, c.isAlpha = true) (hlen : 3 ≤ us.length) :
    speedTail ds (ws ++ us) = some (ds, us) := by
  have hus : us.dropWhile pySpace = us := by
    cases us with
    | nil => rfl
    | cons c t => exact dropWhile_cons_of_neg (alpha_not_space (ha c (by simp)))
  unfold speedTail
  rw [dropWhile_append_of_all _ hw, hus]
  show (if 3 ≤ (us.takeWhile Char.isAlpha).length then
      some (ds, us.takeWhile (fun c => c != '\n')) else none) = some (ds, us)
  rw [takeWhile_of_all ha, if_pos hlen,
    takeWhile_of_all (fun c hc => alpha_ne_newline (ha c hc))]

/-- The speed pattern attempt at the start of `digits ++ spaces ++ letters`
matches with the digit group equal to `ds` and the unit group equal to
`us`. -/
theorem attemptSpeed_exact {ds ws us : List Char} (h1 : 1 ≤ ds.length) (h3 : ds.length ≤ 3)
    (hd : ∀ c ∈ ds, pyDigit c = true) (hw : ∀ c ∈ ws, pySpace c = true)
    (ha : ∀ c ∈ us, c.isAlpha = true) (hlen : 3 ≤ us.length) :
    attemptSpeed (ds ++ ws ++ us) = some (ds, us) := by
  have hune : us ≠ [] := by
    intro h
    rw [h] at hlen
    simp at hlen
  have htail : speedTail ds (ws ++ us) = some (ds, us) := speedTail_exact hw ha hlen
  have hksome : trySpeedK ds.length (ds ++ ws ++ us) = some (ds, us) := by
    unfold trySpeedK
    rw [List.append_assoc, List.take_left, List.drop_left, if_pos ⟨rfl, List.all_eq_true.mpr hd⟩]
    exact htail
  obtain ⟨e, rest, heq, hnd⟩ := head_wsus_nondigit hw ha hune
  match ds, h1, h3 with
  | [a], _, _ =>
    have hn3 : trySpeedK 3 ([a] ++ ws ++ us) = none := by
      refine trySpeedK_none e ?_ hnd
      rw [List.append_assoc, heq]
      simp
    have hn2 : trySpeedK 2 ([a] ++ ws ++ us) = none := by
      refine trySpeedK_none e ?_ hnd
      rw [List.append_assoc, heq]
      simp
    have hk1 : trySpeedK 1 ([a] ++ ws ++ us) = some ([a], us) := hksome
    simp only [attemptSpeed, hn3, hn2, hk1]
  | [a, b], _, _ =>
    have hn3 : trySpeedK 3 ([a, b] ++ ws ++ us) = none := by
      refine trySpeedK_none e ?_ hnd
      rw [List.append_assoc, heq]
      simp
    have hk2 : trySpeedK 2 ([a, b] ++ ws ++ us) = some ([a, b], us) := hksome
    simp only [attemptSpeed, hn3, hk2]
  | [a, b, c], _, _ =>
    have hk3 : trySpeedK 3 ([a, b, c] ++ ws ++ us) = some ([a, b, c], us) := hksome
    simp only [attemptSpeed, hk3]

/-- The head of a list is in any positive-width window. -/
theorem mem_take_head {k : ℕ} (hk : 1 ≤ k) (c : Char) (t : List Char) :
    c ∈ (c :: t).take k := by
  cases k with
  | zero => omega
  | succ n => simp [List.take_succ_cons]

/-- A speed-pattern attempt at a non-digit character fails. -/
theorem attemptSpeed_none_head {c : Char} {t : List Char} (h : pyDigit c = false) :
    attemptSpeed (c :: t) = none := by
  have h3 : trySpeedK 3 (c :: t) = none := trySpeedK_none c (mem_take_head (by decide) c t) h
  have h2 : trySpeedK 2 (c :: t) = none := trySpeedK_none c (mem_take_head (by decide) c t) h
  have h1 : trySpeedK 1 (c :: t) = none := trySpeedK_none c (mem_take_head (by decide) c t) h
  simp only [attemptSpeed, h3, h2, h1]

/-- The speed pattern never matches a digit-free input. -/
theorem speedSearch_none {l : List Char} (h : ∀ c ∈ l, pyDigit c = false) :
    speedSearch l = none := by
  induction l with
  | nil => rfl
  | cons c t ih =>
    rw [speedSearch, attemptSpeed_none_head (h c (by simp))]
    exact ih (fun x hx => h x (List.mem_cons_of_mem _ hx))

/-- C6: the speed parser maps `"8   MPH"` to speed 8 with unit `"MPH"`;
on any input without a digit it returns the default speed 0 with unit
`"MPH"`; and on any input consisting of one to three leading digits,
whitespace and a unit token of at least three letters it returns the
integer value of the digits and the unit token. -/
theorem text_to_speed_spec :
    (text_to_speed "8   MPH" = ⟨8, "MPH"⟩) ∧
    (∀ s : String, (∀ c ∈ s.data, pyDigit c = false) → text_to_speed s = ⟨0, "MPH"⟩) ∧
    (∀ ds ws us : List Char, 1 ≤ ds.length → ds.length ≤ 3 →
      (∀ c ∈ ds, pyDigit c = true) → (∀ c ∈ ws, pySpace c = true) →
      (∀ c ∈ us, c.isAlpha = true) → 3 ≤ us.length →
      text_to_speed (String.mk (ds ++ ws ++ us)) = ⟨natOfDigits ds, String.mk us⟩) := by
  refine ⟨by decide, ?_, ?_⟩
  · intro s hs
    unfold text_to_speed
    rw [speedSearch_none hs]
  · intro ds ws us h1 h3 hd hw ha hlen
    have hatt := attemptSpeed_exact h1 h3 hd hw ha hlen
    obtain ⟨a, ds', rfl⟩ := List.exists_cons_of_ne_nil (l := ds)
      (by
        intro h
        rw [h] at h1
        simp at h1)
    unfold text_to_speed
    rw [show (String.mk ((a :: ds') ++ ws ++ us)).data = (a :: ds') ++ ws ++ us from rfl,
      List.cons_append, List.cons_append, speedSearch, ← List.cons_append, ← List.cons_append,
      hatt]

/-- Witness for C6: both conditional parts at concrete inputs. -/
theorem text_to_speed_spec_witness :
    text_to_speed "xyz" = ⟨0, "MPH"⟩ ∧ text_to_speed "72MPH" = ⟨72, "MPH"⟩ := by
  constructor
  · exact text_to_speed_spec.2.1 "xyz" (by decide)
  · have h := text_to_speed_spec.2.2 ['7', '2'] [] ['M', 'P', 'H'] (by decide) (by decide)
      (by decide) (by decide) (by decide) (by decide)
    have e1 : String.mk (['7', '2'] ++ [] ++ ['M', 'P', 'H']) = "72MPH" := by decide
    have e2 : natOfDigits ['7', '2'] = 72 := by decide
    have e3 : String.mk ['M', 'P', 'H'] = "MPH" := by decide
    rw [e1, e2, e3] at h
    exact h

/-- The coordinate pattern never matches an input without `N` or `S`. -/
theorem coordSearch_none {l : List Char} (h : ∀ c ∈ l, c ≠ 'N' ∧ c ≠ 'S') :
    coordSearch l = none := by
  induction l with
  | nil => rfl
  | cons c t ih =>
    rw [coordSearch, if_neg]
    · exact ih (fun x hx => h x (List.mem_cons_of_mem _ hx))
    · have hc := h c (by simp)
      simp [hc.1, hc.2]

/-- A successful coordinate attempt copies its start character into the
latitude direction group and puts `E` or `W` into the longitude one. -/
theorem attemptCoord_dirs {c : Char} {s : List Char} {g : CoordGroups}
    (h : attemptCoord c s = some g) : g.latDir = c ∧ (g.lonDir = 'E' ∨ g.lonDir = 'W') := by
  unfold attemptCoord at h
  split at h
  · exact Option.noConfusion h
  · split at h
    · exact Option.noConfusion h
    · split at h
      · rename_i hcond
        split at h
        · exact Option.noConfusion h
        · rw [Option.some_inj] at h
          subst h
          refine ⟨rfl, ?_⟩
          simpa using hcond
      · exact Option.noConfusion h

/-- A successful coordinate search has hemisphere letters in its direction
groups. -/
theorem coordSearch_dirs {l : List Char} {g : CoordGroups} (h : coordSearch l = some g) :
    (g.latDir = 'N' ∨ g.latDir = 'S') ∧ (g.lonDir = 'E' ∨ g.lonDir = 'W') := by
  induction l with
  | nil => exact Option.noConfusion h
  | cons c t ih =>
    rw [coordSearch] at h
    split at h
    · rename_i hcond
      split at h
      · rename_i g' heq
        rw [Option.some_inj] at h
        subst h
        obtain ⟨h1, h2⟩ := attemptCoord_dirs heq
        refine ⟨?_, h2⟩
        rw [h1]
        simpa using hcond
      · exact ih h
    · exact ih h

/-- C4: the coordinate parser maps the spec example to
`(40.426786, -97.665820)`; any input without a hemisphere letter `N`/`S`
yields the sentinel `(0, 0)`; and whenever the pattern matches, the
latitude is negated exactly when the hemisphere letter is `S` and the
longitude exactly when it is `W`. -/
theorem text_to_coordinates_spec :
    (text_to_coordinates "N40.426786 W97 .665820" =
      ⟨(40.426786 : ℚ), (-97.665820 : ℚ)⟩) ∧
    (∀ s : String, (∀ c ∈ s.data, c ≠ 'N' ∧ c ≠ 'S') → text_to_coordinates s = ⟨0, 0⟩) ∧
    (∀ (s : String) (g : CoordGroups), coordSearch s.data = some g →
      text_to_coordinates s =
        ⟨if g.latDir = 'S' then -(ratOfParts g.latWhole g.latFrac)
            else ratOfParts g.latWhole g.latFrac,
          if g.lonDir = 'W' then -(ratOfParts g.lonWhole g.lonFrac)
            else ratOfParts g.lonWhole g.lonFrac⟩) := by
  refine ⟨?_, ?_, ?_⟩
  · have h : coordSearch ("N40.426786 W97 .665820").data =
        some ⟨'N', ['4', '0'], ['4', '2', '6', '7', '8', '6'],
              'W', ['9', '7'], ['6', '6', '5', '8', '2', '0']⟩ := by decide
    have e1 : natOfDigits ['4', '0'] = 40 := by decide
    have e2 : natOfDigits ['4', '2', '6', '7', '8', '6'] = 426786 := by decide
    have e3 : natOfDigits ['9', '7'] = 97 := by decide
    have e4 : natOfDigits ['6', '6', '5', '8', '2', '0'] = 665820 := by decide
    unfold text_to_coordinates
    rw [h]
    norm_num [ratOfParts, e1, e2, e3, e4]
    decide
  · intro s hs
    unfold text_to_coordinates
    rw [coordSearch_none hs]
  · intro s g hg
    obtain ⟨hlat, hlon⟩ := coordSearch_dirs hg
    unfold text_to_coordinates
    rw [hg]
    simp only [Coord.mk.injEq]
    constructor
    · rcases hlat with h | h <;> rw [h] <;> simp
    · rcases hlon with h | h <;> rw [h] <;> simp

/-- Witness for C4: both conditional parts at concrete inputs. -/
theorem text_to_coordinates_spec_witness :
    text_to_coordinates "hello" = ⟨0, 0⟩ ∧
      text_to_coordinates "S1.2 W3.4" =
        ⟨-(ratOfParts ['1'] ['2']), -(ratOfParts ['3'] ['4'])⟩ := by
  constructor
  · exact text_to_coordinates_spec.2.1 "hello" (by decide)
  · have h := text_to_coordinates_spec.2.2 "S1.2 W3.4"
      ⟨'S', ['1'], ['2'], 'W', ['3'], ['4']⟩ (by decide)
    simpa using h

theorem digit_not_space {c : Char} (h : pyDigit c = true) : pySpace c = false := by
  cases hs : pySpace c
  · rfl
  · rw [space_not_digit hs] at h
    exact Bool.noConfusion h

/-- `\D*` consumes a non-digit block up to the next digit. -/
theorem dropNonDigit_append {a : List Char} (X : List Char)
    (ha : ∀ c ∈ a, pyDigit c = false) (x : Char) (t : List Char) (hX : X = x :: t)
    (hx : pyDigit x = true) : (a ++ X).dropWhile (fun c => !pyDigit c) = X := by
  rw [dropWhile_append_of_all _ (fun c hc => by rw [ha c hc]; rfl)]
  subst hX
  exact dropWhile_cons_of_neg (by rw [hx]; rfl)

/-- `\s*` consumes a whitespace block up to the next digit. -/
theorem dropSpace_append {w : List Char} (X : List Char)
    (hw : ∀ c ∈ w, pySpace c = true) (x : Char) (t : List Char) (hX : X = x :: t)
    (hx : pyDigit x = true) : (w ++ X).dropWhile pySpace = X := by
  rw [dropWhile_append_of_all _ hw]
  subst hX
  exact dropWhile_cons_of_neg (digit_not_space hx)

/-- `\s*\D*` together consume any non-digit block up to the next digit. -/
theorem dropSpace_dropNonDigit_append {f : List Char} (X : List Char)
    (hf : ∀ c ∈ f, pyDigit c = false) (x : Char) (t : List Char) (hX : X = x :: t)
    (hx : pyDigit x = true) :
    ((f ++ X).dropWhile pySpace).dropWhile (fun c => !pyDigit c) = X := by
  induction f with
  | nil =>
    subst hX
    rw [List.nil_append, dropWhile_cons_of_neg (digit_not_space hx)]
    exact dropWhile_cons_of_neg (by rw [hx]; rfl)
  | cons c f' ih =>
    by_cases hc : pySpace c = true
    · rw [List.cons_append, List.dropWhile_cons, if_pos hc]
      exact ih (fun y hy => hf y (List.mem_cons_of_mem _ hy))
    · rw [List.cons_append, dropWhile_cons_of_neg (Bool.not_eq_true _ ▸ hc), List.dropWhile_cons,
        if_pos (by rw [hf c (by simp)]; rfl),
        dropWhile_append_of_all _ (fun y hy => by rw [hf y (List.mem_cons_of_mem _ hy)]; rfl)]
      subst hX
      exact dropWhile_cons_of_neg (by rw [hx]; rfl)

/-- A successful attempt at the head position is the search result. -/
theorem tsSearch_head_some {s : List Char} {g : TsGroups} (hne : s ≠ [])
    (h : attemptTs s = some g) : tsSearch s = some g := by
  cases s with
  | nil => exact absurd rfl hne
  | cons c t => rw [tsSearch, h]

/-- C5 counterexample: with the non-whitespace separator `x` between the
date and the hour the pattern does not match, although `x` is a non-digit
separator, and the input is returned unchanged instead of being
canonicalized. -/
theorem text_to_timestamp_cex :
    text_to_timestamp "01-02-2003x04:05:06" = "01-02-2003x04:05:06" ∧
      "01-02-2003x04:05:06" ≠ "01-02-2003 04:05:06" := by decide

/-- C5 (amended): for every input containing
`DD sep MM sep YYYY ws HH sep MM sep SS` — with arbitrary non-digit
separators except between the year and the hour, where only (possibly
empty) whitespace is accepted — the timestamp parser returns the
canonicalized `DD-MM-YYYY HH:MM:SS` string. -/
theorem text_to_timestamp_spec (d1 a d2 b d3 w d4 e d5 f d6 rest : List Char)
    (hd1 : d1.length = 2) (hd2 : d2.length = 2) (hd3 : d3.length = 4)
    (hd4 : d4.length = 2) (hd5 : d5.length = 2) (hd6 : d6.length = 2)
    (h1 : ∀ c ∈ d1, pyDigit c = true) (h2 : ∀ c ∈ d2, pyDigit c = true)
    (h3 : ∀ c ∈ d3, pyDigit c = true) (h4 : ∀ c ∈ d4, pyDigit c = true)
    (h5 : ∀ c ∈ d5, pyDigit c = true) (h6 : ∀ c ∈ d6, pyDigit c = true)
    (ha : ∀ c ∈ a, pyDigit c = false) (hb : ∀ c ∈ b, pyDigit c = false)
    (hw : ∀ c ∈ w, pySpace c = true) (he : ∀ c ∈ e, pyDigit c = false)
    (hf : ∀ c ∈ f, pyDigit c = false) :
    text_to_timestamp (String.mk (d1 ++ (a ++ (d2 ++ (b ++ (d3 ++ (w ++ (d4 ++ (e ++ (d5 ++ (f ++ (d6 ++ rest)))))))))))) =
      String.mk (d1 ++ '-' :: d2 ++ '-' :: d3 ++ ' ' :: d4 ++ ':' :: d5 ++ ':' :: d6) := by
  have hdcons : ∀ (d : List Char), d ≠ [] → (∀ c ∈ d, pyDigit c = true) →
      ∃ x t, d = x :: t ∧ pyDigit x = true := by
    intro d hd hdig
    obtain ⟨x, t, rfl⟩ := List.exists_cons_of_ne_nil hd
    exact ⟨x, t, rfl, hdig x (by simp)⟩
  have hne2 : d2 ≠ [] := by
    intro hnil
    rw [hnil] at hd2
    exact absurd hd2 (by decide)
  have hne3 : d3 ≠ [] := by
    intro hnil
    rw [hnil] at hd3
    exact absurd hd3 (by decide)
  have hne4 : d4 ≠ [] := by
    intro hnil
    rw [hnil] at hd4
    exact absurd hd4 (by decide)
  have hne5 : d5 ≠ [] := by
    intro hnil
    rw [hnil] at hd5
    exact absurd hd5 (by decide)
  have hne6 : d6 ≠ [] := by
    intro hnil
    rw [hnil] at hd6
    exact absurd hd6 (by decide)
  obtain ⟨x2, t2, hd2e, hx2⟩ := hdcons d2 hne2 h2
  obtain ⟨x3, t3, hd3e, hx3⟩ := hdcons d3 hne3 h3
  obtain ⟨x4, t4, hd4e, hx4⟩ := hdcons d4 hne4 h4
  obtain ⟨x5, t5, hd5e, hx5⟩ := hdcons d5 hne5 h5
  obtain ⟨x6, t6, hd6e, hx6⟩ := hdcons d6 hne6 h6
  have s1 : takeDigitsExact 2 (d1 ++ (a ++ (d2 ++ (b ++ (d3 ++ (w ++ (d4 ++ (e ++ (d5 ++ (f ++ (d6 ++ rest))))))))))) = some (d1, a ++ (d2 ++ (b ++ (d3 ++ (w ++ (d4 ++ (e ++ (d5 ++ (f ++ (d6 ++ rest)))))))))) := by
    rw [← hd1]
    exact takeDigitsExact_append _ h1
  have s2 : (a ++ (d2 ++ (b ++ (d3 ++ (w ++ (d4 ++ (e ++ (d5 ++ (f ++ (d6 ++ rest)))))))))).dropWhile (fun c => !pyDigit c) = d2 ++ (b ++ (d3 ++ (w ++ (d4 ++ (e ++ (d5 ++ (f ++ (d6 ++ rest)))))))) :=
    dropNonDigit_append _ ha x2 (t2 ++ (b ++ (d3 ++ (w ++ (d4 ++ (e ++ (d5 ++ (f ++ (d6 ++ rest))))))))) (by rw [hd2e, List.cons_append]) hx2
  have s3 : takeDigitsExact 2 (d2 ++ (b ++ (d3 ++ (w ++ (d4 ++ (e ++ (d5 ++ (f ++ (d6 ++ rest))))))))) = some (d2, b ++ (d3 ++ (w ++ (d4 ++ (e ++ (d5 ++ (f ++ (d6 ++ rest)))))))) := by
    rw [← hd2]
    exact takeDigitsExact_append _ h2
  have s4 : (b ++ (d3 ++ (w ++ (d4 ++ (e ++ (d5 ++ (f ++ (d6 ++ rest)))))))).dropWhile (fun c => !pyDigit c) = d3 ++ (w ++ (d4 ++ (e ++ (d5 ++ (f ++ (d6 ++ rest)))))) :=
    dropNonDigit_append _ hb x3 (t3 ++ (w ++ (d4 ++ (e ++ (d5 ++ (f ++ (d6 ++ rest))))))) (by rw [hd3e, List.cons_append]) hx3
  have s5 : takeDigitsExact 4 (d3 ++ (w ++ (d4 ++ (e ++ (d5 ++ (f ++ (d6 ++ rest))))))) = some (d3, w ++ (d4 ++ (e ++ (d5 ++ (f ++ (d6 ++ rest)))))) := by
    rw [← hd3]
    exact takeDigitsExact_append _ h3
  have s6 : (w ++ (d4 ++ (e ++ (d5 ++ (f ++ (d6 ++ rest)))))).dropWhile pySpace = d4 ++ (e ++ (d5 ++ (f ++ (d6 ++ rest)))) :=
    dropSpace_append _ hw x4 (t4 ++ (e ++ (d5 ++ (f ++ (d6 ++ rest))))) (by rw [hd4e, List.cons_append]) hx4
  have s7 : takeDigitsExact 2 (d4 ++ (e ++ (d5 ++ (f ++ (d6 ++ rest))))) = some (d4, e ++ (d5 ++ (f ++ (d6 ++ rest)))) := by
    rw [← hd4]
    exact takeDigitsExact_append _ h4
  have s8 : (e ++ (d5 ++ (f ++ (d6 ++ rest)))).dropWhile (fun c => !pyDigit c) = d5 ++ (f ++ (d6 ++ rest)) :=
    dropNonDigit_append _ he x5 (t5 ++ (f ++ (d6 ++ rest))) (by rw [hd5e, List.cons_append]) hx5
  have s9 : takeDigitsExact 2 (d5 ++ (f ++ (d6 ++ rest))) = some (d5, f ++ (d6 ++ rest)) := by
    rw [← hd5]
    exact takeDigitsExact_append _ h5
  have s10 : ((f ++ (d6 ++ rest)).dropWhile pySpace).dropWhile (fun c => !pyDigit c) = d6 ++ rest :=
    dropSpace_dropNonDigit_append _ hf x6 (t6 ++ rest) (by rw [hd6e, List.cons_append]) hx6
  have s11 : takeDigitsExact 2 (d6 ++ rest) = some (d6, rest) := by
    rw [← hd6]
    exact takeDigitsExact_append _ h6
  have hatt : attemptTs (d1 ++ (a ++ (d2 ++ (b ++ (d3 ++ (w ++ (d4 ++ (e ++ (d5 ++ (f ++ (d6 ++ rest))))))))))) = some ⟨d1, d2, d3, d4, d5, d6⟩ := by
    simp only [attemptTs, s1, s2, s3, s4, s5, s6, s7, s8, s9, s10, s11, Option.bind_eq_bind,
      Option.some_bind, Option.pure_def]
  have hnefull : (d1 ++ (a ++ (d2 ++ (b ++ (d3 ++ (w ++ (d4 ++ (e ++ (d5 ++ (f ++ (d6 ++ rest))))))))))) ≠ [] := by
    intro hnil
    rw [List.append_eq_nil] at hnil
    rw [hnil.1] at hd1
    exact absurd hd1 (by decide)
  unfold text_to_timestamp
  rw [show (String.mk (d1 ++ (a ++ (d2 ++ (b ++ (d3 ++ (w ++ (d4 ++ (e ++ (d5 ++ (f ++ (d6 ++ rest)))))))))))).data = d1 ++ (a ++ (d2 ++ (b ++ (d3 ++ (w ++ (d4 ++ (e ++ (d5 ++ (f ++ (d6 ++ rest)))))))))) from rfl, tsSearch_head_some hnefull hatt]

/-- Witness for C5 (amended): the spec example
`"08-04-2024 11:  04 :13"` canonicalizes to `"08-04-2024 11:04:13"`. -/
theorem text_to_timestamp_spec_witness :
    text_to_timestamp "08-04-2024 11:  04 :13" = "08-04-2024 11:04:13" := by
  have h := text_to_timestamp_spec ['0', '8'] ['-'] ['0', '4'] ['-'] ['2', '0', '2', '4'] [' ']
    ['1', '1'] [':', ' ', ' '] ['0', '4'] [' ', ':'] ['1', '3'] []
    (by decide) (by decide) (by decide) (by decide) (by decide) (by decide)
    (by decide) (by decide) (by decide) (by decide) (by decide) (by decide)
    (by decide) (by decide) (by decide) (by decide) (by decide)
  rw [show String.mk (['0', '8'] ++ (['-'] ++ (['0', '4'] ++ (['-'] ++ (['2', '0', '2', '4'] ++
      ([' '] ++ (['1', '1'] ++ ([':', ' ', ' '] ++ (['0', '4'] ++ ([' ', ':'] ++
      (['1', '3'] ++ ([] : List Char)))))))))))) = "08-04-2024 11:  04 :13" from by decide,
    show String.mk (['0', '8'] ++ '-' :: ['0', '4'] ++ '-' :: ['2', '0', '2', '4'] ++ ' ' ::
      ['1', '1'] ++ ':' :: ['0', '4'] ++ ':' :: ['1', '3']) = "08-04-2024 11:04:13" from
      by decide] at h
  exact h

/-- `optionMapList` fails as soon as one element fails. -/
theorem optionMapList_none_of_mem {α β : Type} {l : List α} {g : α → Option β} {x : α}
    (hx : x ∈ l) (hgx : g x = none) : optionMapList g l = none := by
  induction l with
  | nil => cases hx
  | cons y ys ih =>
    rcases List.mem_cons.mp hx with rfl | hx2
    · simp [optionMapList, hgx]
    · cases hgy : g y
      · simp [optionMapList, hgy]
      · simp [optionMapList, hgy, ih hx2]

/-- C10: even when the directory exists and holds at least one recognized
image, `image_directory_to_dict` completes without raising only if every
recognized image filename contains a digit: one digit-free image filename
makes the numeric-suffix regex search return `None` and the `.group(1)`
call raise an uncaught `AttributeError` while sorting, instead of any
per-entry error value. -/
theorem image_dict_digitless_crash (input_dir : String) (listing : List (String × String))
    (f : String × String) (hf : f ∈ listing) (himg : isImageFile f.1.data = true)
    (hnd : ∀ c ∈ f.1.data, pyDigit c = false) :
    image_directory_to_dict input_dir listing = none := by
  have hmem : f ∈ listing.filter (fun f => isImageFile f.1.data) :=
    List.mem_filter.mpr ⟨hf, himg⟩
  have hrun : firstDigitRun f.1.data = none := by
    unfold firstDigitRun
    rw [if_pos]
    rw [dropWhile_of_all (fun c hc => by rw [hnd c hc]; rfl)]
    rfl
  have hmapm : optionMapList
      (fun f => (firstDigitRun f.1.data).map (fun run => (natOfDigits run, f)))
      (listing.filter (fun f => isImageFile f.1.data)) = none :=
    optionMapList_none_of_mem hmem (by rw [hrun]; rfl)
  unfold image_directory_to_dict
  rw [if_neg (fun h => by rw [h] at hmem; exact absurd hmem (List.not_mem_nil f)), hmapm]

/-- Witness for C10: a directory with a single image named `frame.jpg`
(no digit) makes the builder raise instead of producing a dictionary. -/
theorem image_dict_digitless_crash_witness :
    image_directory_to_dict "../frames/vid/time" [("frame.jpg", "boo")] = none :=
  image_dict_digitless_crash "../frames/vid/time" [("frame.jpg", "boo")] ("frame.jpg", "boo")
    (by decide) (by decide) (by decide)

theorem isPrefixOf_append_self {a b : List Char} : a.isPrefixOf (a ++ b) = true := by
  induction a with
  | nil => simp [List.isPrefixOf]
  | cons c t ih => simp [List.isPrefixOf, ih]

theorem lastSlashSplit_none {l : List Char} (h : '/' ∉ l) : lastSlashSplit l = none := by
  induction l with
  | nil => rfl
  | cons c t ih =>
    rw [lastSlashSplit, ih (fun hm => h (List.mem_cons_of_mem _ hm))]
    show (if c = '/' then some (([] : List Char), t) else none) = none
    rw [if_neg (fun hc => h (by rw [← hc]; exact List.mem_cons_self c t))]

theorem lastSlashSplit_sep (v k : List Char) (hk : '/' ∉ k) :
    lastSlashSplit (v ++ '/' :: k) = some (v, k) := by
  induction v with
  | nil =>
    rw [List.nil_append, lastSlashSplit, lastSlashSplit_none hk]
    show (if ('/' : Char) = '/' then some (([] : List Char), k) else none) = some ([], k)
    rw [if_pos rfl]
  | cons c t ih =>
    rw [List.cons_append, lastSlashSplit, ih]

theorem rstripSlash_eq_self {l : List Char} (h : l.getLast? ≠ some '/') :
    rstripSlash l = l := by
  unfold rstripSlash
  cases hrev : l.reverse with
  | nil =>
    rw [List.dropWhile_nil, ← hrev, List.reverse_reverse]
  | cons c t =>
    have hlast : l.getLast? = some c := by
      rw [← List.head?_reverse, hrev]
      rfl
    have hc : ¬(c = '/') := fun hceq => h (by rw [hlast, hceq])
    rw [dropWhile_cons_of_neg (by simp [hc]), ← hrev, List.reverse_reverse]

theorem dirSearch_entry {X : List Char} {g : List Char} (h : attemptDir X = some g) :
    dirSearch ("../frames/".data ++ X) = some g := by
  have hpre : ("../frames/".data).isPrefixOf ("../frames/".data ++ X) = true :=
    isPrefixOf_append_self
  rw [show "../frames/".data ++ X =
      '.' :: '.' :: '/' :: 'f' :: 'r' :: 'a' :: 'm' :: 'e' :: 's' :: '/' :: X from rfl] at hpre ⊢
  rw [dirSearch, if_pos hpre,
    show ('.' :: '.' :: '/' :: 'f' :: 'r' :: 'a' :: 'm' :: 'e' :: 's' :: '/' :: X).drop 10 = X
      from rfl, h]

/-- On a directory of the documented layout the kind regex returns exactly
the final path segment. -/
theorem dirSearch_form {v k : List Char} (hv : ∀ c ∈ v, pySpace c = false)
    (hkS : ∀ c ∈ k, pySpace c = false) (hkD : ∀ c ∈ k, pyDigit c = false)
    (hks : '/' ∉ k) :
    dirSearch ("../frames/".data ++ (v ++ '/' :: k)) = some k := by
  apply dirSearch_entry
  unfold attemptDir
  have hall : ∀ c ∈ v ++ '/' :: k, (!pySpace c) = true := by
    intro c hc
    rcases List.mem_append.mp hc with h | h
    · rw [hv c h]
      rfl
    · rcases List.mem_cons.mp h with rfl | h
      · decide
      · rw [hkS c h]
        rfl
  rw [takeWhile_of_all hall, dropWhile_of_all hall, lastSlashSplit_sep v k hks]
  show some ((k ++ []).takeWhile (fun c => !pyDigit c)) = some k
  rw [List.append_nil, takeWhile_of_all (fun c hc => by rw [hkD c hc]; rfl)]

theorem mem_dictInsert {d : List (ℕ × Entry)} {kk : ℕ} {v : Entry} {r : ℕ × Entry}
    (h : r ∈ dictInsert d kk v) : r ∈ d ∨ r.2 = v := by
  unfold dictInsert at h
  split at h
  · obtain ⟨p, hp, hpe⟩ := List.mem_map.mp h
    split at hpe
    · rw [← hpe]
      exact Or.inr rfl
    · rw [← hpe]
      exact Or.inl hp
  · rcases List.mem_append.mp h with h | h
    · exact Or.inl h
    · rw [List.mem_singleton.mp h]
      exact Or.inr rfl

theorem dictInsert_ne_nil {d : List (ℕ × Entry)} {kk : ℕ} {v : Entry} :
    dictInsert d kk v ≠ [] := by
  unfold dictInsert
  split
  · next hany =>
    intro hmap
    rw [List.map_eq_nil_iff] at hmap
    subst hmap
    simp at hany
  · intro happ
    rw [List.append_eq_nil] at happ
    exact List.noConfusion happ.2

theorem foldl_dictInsert_ne_nil (mkE : ℕ × String × String → Entry) :
    ∀ (l : List (ℕ × String × String)) (acc : List (ℕ × Entry)), acc ≠ [] →
      l.foldl (fun d p => dictInsert d p.1 (mkE p)) acc ≠ [] := by
  intro l
  induction l with
  | nil =>
    intro acc h
    exact h
  | cons p ps ih =>
    intro acc _
    rw [List.foldl_cons]
    exact ih _ dictInsert_ne_nil

theorem foldl_dictInsert_entries {P : Entry → Prop} (mkE : ℕ × String × String → Entry)
    (hmk : ∀ p, P (mkE p)) :
    ∀ (l : List (ℕ × String × String)) (acc : List (ℕ × Entry)),
      (∀ q ∈ acc, P q.2) →
      ∀ q ∈ l.foldl (fun d p => dictInsert d p.1 (mkE p)) acc, P q.2 := by
  intro l
  induction l with
  | nil =>
    intro acc hacc q hq
    exact hacc q hq
  | cons p ps ih =>
    intro acc hacc q hq
    rw [List.foldl_cons] at hq
    refine ih _ ?_ q hq
    intro r hr
    rcases mem_dictInsert hr with h | h
    · exact hacc r h
    · rw [h]
      exact hmk p

theorem optionMapList_some {α β : Type} {g : α → Option β} :
    ∀ {l : List α}, (∀ x ∈ l, (g x).isSome = true) →
      ∃ ys, optionMapList g l = some ys ∧ ys.length = l.length := by
  intro l
  induction l with
  | nil => exact fun _ => ⟨[], rfl, rfl⟩
  | cons x xs ih =>
    intro h
    obtain ⟨y, hy⟩ := Option.isSome_iff_exists.mp (h x (by simp))
    obtain ⟨ys, hys, hlen⟩ := ih (fun z hz => h z (List.mem_cons_of_mem _ hz))
    exact ⟨y :: ys, by simp [optionMapList, hy, hys], by simp [hlen]⟩

theorem dropWhile_nondigit_head {s : List Char} (h : ∃ c ∈ s, pyDigit c = true) :
    ∃ x t, s.dropWhile (fun c => !pyDigit c) = x :: t ∧ pyDigit x = true := by
  induction s with
  | nil =>
    obtain ⟨c, hc, _⟩ := h
    cases hc
  | cons c cs ih =>
    by_cases hdc : pyDigit c = true
    · exact ⟨c, cs, by rw [dropWhile_cons_of_neg (by rw [hdc]; rfl)], hdc⟩
    · have hcf : pyDigit c = false := by
        cases hx : pyDigit c
        · rfl
        · exact absurd hx hdc
      obtain ⟨x, hx, hdig⟩ := h
      rcases List.mem_cons.mp hx with rfl | hmem
      · exact absurd hdig hdc
      · obtain ⟨y, t, heq, hd2⟩ := ih ⟨x, hmem, hdig⟩
        refine ⟨y, t, ?_, hd2⟩
        rw [List.dropWhile_cons, if_pos (by rw [hcf]; rfl)]
        exact heq

theorem firstDigitRun_isSome {s : List Char} (h : ∃ c ∈ s, pyDigit c = true) :
    (firstDigitRun s).isSome = true := by
  obtain ⟨x, t, heq, hd⟩ := dropWhile_nondigit_head h
  unfold firstDigitRun
  rw [if_neg]
  · rfl
  · rw [heq]
    simp [List.takeWhile_cons, hd]

theorem insertByKey_length (x : ℕ × String × String) :
    ∀ l, (insertByKey x l).length = l.length + 1 := by
  intro l
  induction l with
  | nil => rfl
  | cons y ys ih =>
    unfold insertByKey
    split
    · simp
    · simp [ih]

theorem sortByKey_length (l : List (ℕ × String × String)) :
    (sortByKey l).length = l.length := by
  unfold sortByKey
  induction l with
  | nil => rfl
  | cons x xs ih => simp [List.foldr_cons, insertByKey_length, ih]

/-- C9: on a directory of the documented form `../frames/<video>/<kind>`,
the attribute kind the builder uses is exactly the final path segment
`<kind>`, the kind determines which text parser produces each entry, and an
unrecognized kind yields the per-entry error value while the builder still
returns a dictionary for all frames rather than aborting. -/
theorem image_directory_kind_dispatch (v k : String) (listing : List (String × String))
    (hv : ∀ c ∈ v.data, pySpace c = false)
    (hkS : ∀ c ∈ k.data, pySpace c = false) (hkD : ∀ c ∈ k.data, pyDigit c = false)
    (hks : '/' ∉ k.data) (hkne : k.data ≠ [])
    (hdig : ∀ f ∈ listing, isImageFile f.1.data = true → ∃ c ∈ f.1.data, pyDigit c = true)
    (f0 : String × String) (hf0 : f0 ∈ listing) (hf0img : isImageFile f0.1.data = true) :
    dirSearch (rstripSlash ("../frames/" ++ v ++ "/" ++ k).data) = some k.data ∧
    ∃ d, image_directory_to_dict ("../frames/" ++ v ++ "/" ++ k) listing = some d ∧ d ≠ [] ∧
      (k ∉ (["gps", "speed", "time"] : List String) → ∀ p ∈ d, p.2 = Entry.errE) ∧
      (k = "gps" → ∀ p ∈ d, ∃ t, p.2 = Entry.gpsE (text_to_coordinates t)) ∧
      (k = "speed" → ∀ p ∈ d, ∃ t, p.2 = Entry.speedE (text_to_speed t)) ∧
      (k = "time" → ∀ p ∈ d, ∃ t, p.2 = Entry.timeE (text_to_timestamp t)) := by
  have hdata : ("../frames/" ++ v ++ "/" ++ k).data =
      "../frames/".data ++ (v.data ++ '/' :: k.data) := by
    simp only [String.data_append, List.append_assoc]
    rfl
  have hlast : ("../frames/".data ++ (v.data ++ '/' :: k.data)).getLast? ≠ some '/' := by
    rw [show "../frames/".data ++ (v.data ++ '/' :: k.data) =
        ("../frames/".data ++ v.data ++ ['/']) ++ k.data by simp,
      List.getLast?_append_of_ne_nil _ hkne]
    intro hsome
    exact hks (List.mem_of_getLast?_eq_some hsome)
  have hrs : rstripSlash ("../frames/" ++ v ++ "/" ++ k).data =
      "../frames/".data ++ (v.data ++ '/' :: k.data) := by
    rw [hdata]
    exact rstripSlash_eq_self hlast
  have hsearch : dirSearch (rstripSlash ("../frames/" ++ v ++ "/" ++ k).data) = some k.data := by
    rw [hrs]
    exact dirSearch_form hv hkS hkD hks
  refine ⟨hsearch, ?_⟩
  have hmem0 : f0 ∈ listing.filter (fun f => isImageFile f.1.data) :=
    List.mem_filter.mpr ⟨hf0, hf0img⟩
  have hne : listing.filter (fun f => isImageFile f.1.data) ≠ [] := fun h => by
    rw [h] at hmem0
    exact absurd hmem0 (List.not_mem_nil f0)
  obtain ⟨keyed, hkeyed, hklen⟩ := optionMapList_some
    (g := fun f => (firstDigitRun f.1.data).map (fun run => (natOfDigits run, f)))
    (l := listing.filter (fun f => isImageFile f.1.data))
    (fun x hx => by
      obtain ⟨hxl, hximg⟩ := List.mem_filter.mp hx
      have hsome := firstDigitRun_isSome (hdig x hxl hximg)
      show ((firstDigitRun x.1.data).map (fun run => (natOfDigits run, x))).isSome = true
      obtain ⟨y, hy⟩ := Option.isSome_iff_exists.mp hsome
      rw [hy]
      rfl)
  have hsortlen : (sortByKey keyed).length = keyed.length := sortByKey_length keyed
  have hsortne : sortByKey keyed ≠ [] := by
    intro h
    rw [h] at hsortlen
    rw [hklen] at hsortlen
    have := List.length_pos.mpr hne
    rw [← hsortlen] at this
    exact absurd this (by simp)
  simp only [image_directory_to_dict]
  rw [if_neg hne]
  simp only [hkeyed, hsearch]
  refine ⟨_, rfl, ?_, ?_, ?_, ?_, ?_⟩
  · obtain ⟨p0, ps, hps⟩ := List.exists_cons_of_ne_nil hsortne
    rw [hps, List.foldl_cons]
    exact foldl_dictInsert_ne_nil _ ps _ dictInsert_ne_nil
  · intro hnot
    have hg : ¬(k = "gps") := fun h => hnot (by rw [h]; simp)
    have hs : ¬(k = "speed") := fun h => hnot (by rw [h]; simp)
    have ht : ¬(k = "time") := fun h => hnot (by rw [h]; simp)
    exact foldl_dictInsert_entries (P := fun e => e = Entry.errE) _
      (fun p => by rw [if_neg hg, if_neg hs, if_neg ht]) (sortByKey keyed) []
      (fun q hq => absurd hq (List.not_mem_nil q))
  · intro hcond
    subst hcond
    exact foldl_dictInsert_entries
      (P := fun e => ∃ t, e = Entry.gpsE (text_to_coordinates t)) _
      (fun p => ⟨p.2.2, by rw [if_pos rfl]⟩) (sortByKey keyed) []
      (fun q hq => absurd hq (List.not_mem_nil q))
  · intro hcond
    subst hcond
    exact foldl_dictInsert_entries
      (P := fun e => ∃ t, e = Entry.speedE (text_to_speed t)) _
      (fun p => ⟨p.2.2, by rw [if_neg (by decide), if_pos rfl]⟩) (sortByKey keyed) []
      (fun q hq => absurd hq (List.not_mem_nil q))
  · intro hcond
    subst hcond
    exact foldl_dictInsert_entries
      (P := fun e => ∃ t, e = Entry.timeE (text_to_timestamp t)) _
      (fun p => ⟨p.2.2, by rw [if_neg (by decide), if_neg (by decide), if_pos rfl]⟩)
      (sortByKey keyed) [] (fun q hq => absurd hq (List.not_mem_nil q))

/-- Witness for C9: on `../frames/vid1/foo` (unrecognized kind `foo`) the
builder derives the kind `foo` and records the error value for the single
frame instead of aborting. -/
theorem image_directory_kind_dispatch_witness :
    dirSearch (rstripSlash ("../frames/" ++ "vid1" ++ "/" ++ "foo").data) = some "foo".data ∧
      image_directory_to_dict ("../frames/" ++ "vid1" ++ "/" ++ "foo")
        [("frame_1.jpg", "hello")] = some [(1, Entry.errE)] := by
  have h := image_directory_kind_dispatch "vid1" "foo" [("frame_1.jpg", "hello")]
    (by decide) (by decide) (by decide) (by decide) (by decide)
    (by decide) ("frame_1.jpg", "hello") (by decide) (by decide)
  refine ⟨h.1, by decide⟩

end Dashcam
